import Mathlib

/-!
Shallow embedding of the ChubaoFS DataNode extent storage engine and the
MetaNode metadata partition, translated from the Go sources
(`storage/store_extent.go`, `storage/extent.go`, `datanode/message_handler.go`,
`metanode/partition_fsm.go`, `metanode/partition.go`,
`metanode/partition_fsmop_dentry.go`, `metanode/partition_free_list.go`,
`metanode/metanode.go`), together with theorems settling the specification
claims about them.

Machine integers are modelled as `Nat`/`Int`; Go `int64` parameters
(offsets and sizes) become `Int`, unsigned identifiers become `Nat`.
Byte-level file I/O is modelled by explicit state records; physical I/O
failures are not modelled (every disk read/write succeeds), only the
logical error paths of the source are kept.
-/

namespace ChubaoFS

/-! ### Storage constants (util package, values per the spec: 128 KiB blocks, 1024 blocks) -/

/-- util.BlockSize: 128 KiB. -/
def blockSize : Int := 131072

/-- util.BlockCount: 1024 blocks per extent. -/
def blockCount : Int := 1024

/-- storage.TinyExtentStartId. -/
def tinyExtentStartId : Nat := 50000000

/-- storage.TinyExtentCount. -/
def tinyExtentCount : Nat := 128

/-- storage.IsTinyExtent (store_extent.go): id in [TinyExtentStartId, TinyExtentStartId+TinyExtentCount). -/
def IsTinyExtent (extentId : Nat) : Bool :=
  tinyExtentStartId ≤ extentId && extentId < tinyExtentStartId + tinyExtentCount

/-! ### FileInfo and the extent filters (store_extent.go) -/

/-- storage.FileInfo: the in-memory index record of one extent.
Times are unix seconds (`Int`). -/
structure FileInfo where
  fileId : Nat
  inode : Nat
  size : Nat
  crc : Nat
  deleted : Bool
  modTime : Int
  deriving Repr, DecidableEq

/-- storage.GetStableExtentFilter (store_extent.go line 61): selects non-tiny
extents whose modified time is more than 10 minutes before `now`, that are
not deleted and have size > 0. -/
def stableExtentFilter (now : Int) (info : FileInfo) : Bool :=
  !IsTinyExtent info.fileId && now - info.modTime > 10 * 60 && info.deleted == false && info.size > 0

/-- storage.GetEmptyExtentFilter (store_extent.go line 82): selects non-tiny
extents whose modified time is more than 60 minutes before `now`, that are
not deleted and have size exactly 0. -/
def emptyExtentFilter (now : Int) (info : FileInfo) : Bool :=
  !IsTinyExtent info.fileId && now - info.modTime > 60 * 60 && info.deleted == false && info.size == 0

/-- proto.File record emitted by SnapShot; `name` is the decimal string of the extent id. -/
structure ProtoFile where
  name : String
  crc : Nat
  size : Nat
  markDel : Bool
  modified : Int
  deriving Repr, DecidableEq

/-- Conversion performed in the loop of ExtentStore.SnapShot (store_extent.go lines 159-167). -/
def toProtoFile (info : FileInfo) : ProtoFile :=
  { name := toString info.fileId
    crc := info.crc
    size := info.size
    markDel := info.deleted
    modified := info.modTime }

/-- ExtentStore.GetAllWatermark (store_extent.go lines 564-580): returns the
info-map entries that pass the filter. The in-memory map is modelled as the
list of its entries. -/
def GetAllWatermark (infos : List FileInfo) (filter : FileInfo → Bool) : List FileInfo :=
  infos.filter filter

/-- ExtentStore.SnapShot (store_extent.go lines 151-170): filters the info map
with GetEmptyExtentFilter and converts each survivor to a proto.File. -/
def SnapShot (now : Int) (infos : List FileInfo) : List ProtoFile :=
  (GetAllWatermark infos (emptyExtentFilter now)).map toProtoFile

/-! ### Extent files and the write path (extent.go, store_extent.go) -/

/-- Error outcomes of the storage layer. `slicePanic` models the Go runtime
panic raised by `data[:size]` when `size` is negative or exceeds the buffer
length; `negativeOffset` models the I/O error of WriteAt at a negative file
position. -/
inductive StoreErr where
  | paramMismatch
  | hasDelete
  | notExist
  | extentExists
  | extentHasFull
  | loadFailed
  | slicePanic
  | negativeOffset
  deriving Repr, DecidableEq

/-- fsExtent.checkOffsetAndSize (extent.go lines 455-467); identical code in
ExtentStore.checkOffsetAndSize for non-tiny ids (store_extent.go lines 343-358). -/
def checkOffsetAndSize (offset size : Int) : Option StoreErr :=
  if offset + size > blockSize * blockCount then some .paramMismatch
  else if offset ≥ blockCount * blockSize ∨ size = 0 then some .paramMismatch
  else if size > blockSize then some .paramMismatch
  else none

/-- ExtentStore.checkOffsetAndSize (store_extent.go lines 343-358): tiny
extents bypass the bounds check. -/
def storeCheckOffsetAndSize (extentId : Nat) (offset size : Int) : Option StoreErr :=
  if IsTinyExtent extentId then none
  else checkOffsetAndSize offset size

/-- util.BlockHeaderSize: 8-byte inode stamp + 1024 4-byte block CRCs. -/
def blockHeaderSize : Int := 4104

/-- In-core state of one extent entry file (fsExtent): the tombstone byte of
the header and the data length. Data bytes and per-block CRCs are elided:
the claims under verification concern control flow and sizes only. -/
structure ExtFile where
  markDel : Bool
  dataSize : Int
  deriving Repr, DecidableEq

/-- fsExtent.IsMarkDelete (extent.go lines 293-300): tiny extents are never
reported as deleted; normal extents report the header tombstone byte. -/
def extentIsMarkDelete (extentId : Nat) (e : ExtFile) : Bool :=
  if IsTinyExtent extentId then false else e.markDel

/-- PageSize for tiny extents: 4 KiB. -/
def pageSize : Int := 4096

/-- fsExtent.WriteTiny (extent.go lines 317-332): refuse when offset+size
reaches 2^32, then write at the raw offset and round data_size up to a page
multiple. -/
def writeTiny (e : ExtFile) (dataLen offset size : Int) : Except StoreErr ExtFile :=
  if offset + size ≥ 4294967295 then .error .extentHasFull
  else if size < 0 ∨ dataLen < size then .error .slicePanic
  else if offset < 0 then .error .negativeOffset
  else
    let ds := offset + size
    let ds := if ds % pageSize != 0 then ds + (pageSize - ds % pageSize) else ds
    .ok { e with dataSize := ds }

/-- fsExtent.Write for a normal extent (extent.go lines 350-408): bounds check,
then `data[:size]` is written at `header + offset` and data_size advances to
max(old, offset+size). CRC maintenance touches only the header and is elided. -/
def fsExtentWrite (extentId : Nat) (e : ExtFile) (dataLen offset size : Int) :
    Except StoreErr ExtFile :=
  if IsTinyExtent extentId then writeTiny e dataLen offset size
  else
    match checkOffsetAndSize offset size with
    | some err => .error err
    | none =>
      if size < 0 ∨ dataLen < size then .error .slicePanic
      else if offset + blockHeaderSize < 0 then .error .negativeOffset
      else .ok { e with dataSize := max e.dataSize (offset + size) }

/-! ### ExtentStore state (store_extent.go)

The store owns the info map, the LRU cache of open extents, the entry files
on disk, the append-only delete log and its replay cursor, and the normal
extent id allocator. Maps keyed by extent id are modelled as association
lists; each delete-log record is 8 bytes (one big-endian u64 id) on disk, so
the byte cursor `delIdxOff` advances in steps of 8. -/

structure StoreState where
  infoMap : List (Nat × FileInfo)
  cache : List Nat
  files : List (Nat × ExtFile)
  deleteLog : List Nat
  delIdxOff : Nat
  baseExtentId : Nat
  deriving Repr, DecidableEq

/-- Association-list lookup. -/
def lookupA {α : Type} : List (Nat × α) → Nat → Option α
  | [], _ => none
  | p :: rest, k => if p.1 = k then some p.2 else lookupA rest k

/-- Association-list removal. -/
def removeA {α : Type} (l : List (Nat × α)) (k : Nat) : List (Nat × α) :=
  l.filter (fun p => p.1 != k)

/-- Association-list insert-or-replace. -/
def insertA {α : Type} (l : List (Nat × α)) (k : Nat) (v : α) : List (Nat × α) :=
  (k, v) :: removeA l k

/-- ExtentStore.IsExistExtent (store_extent.go lines 240-245). -/
def IsExistExtent (s : StoreState) (extentId : Nat) : Bool :=
  (lookupA s.infoMap extentId).isSome

/-- ExtentStore.getExtentWithHeader (store_extent.go lines 229-238): serve
from the cache, otherwise load the entry file from disk and cache it; fail
when the file is absent. (In the source a cached handle could outlive its
unlinked file, but every removal path invalidates the cache first, so cache
membership implies file presence in all modelled flows.) -/
def getExtentWithHeader (s : StoreState) (extentId : Nat) :
    Option (ExtFile × StoreState) :=
  match lookupA s.files extentId with
  | none => none
  | some e =>
    if s.cache.contains extentId then some (e, s)
    else some (e, { s with cache := extentId :: s.cache })

/-- FileInfo.FromExtent (extent.go lines 53-64): refresh an info record from
the extent; tiny extents keep their previous Deleted/ModTime/Crc fields. -/
def fromExtent (info : FileInfo) (extentId : Nat) (e : ExtFile) (now : Int) : FileInfo :=
  if IsTinyExtent extentId then
    { info with fileId := extentId, size := e.dataSize.toNat }
  else
    { info with fileId := extentId, size := e.dataSize.toNat,
                deleted := e.markDel, modTime := now }

/-- ExtentStore.UpdateBaseExtentId (store_extent.go lines 205-219): tiny ids
are ignored; otherwise raise the persisted allocator to `id` when `id` is at
least the current base. -/
def UpdateBaseExtentId (s : StoreState) (id : Nat) : StoreState :=
  if IsTinyExtent id then s
  else if id ≥ s.baseExtentId then { s with baseExtentId := id } else s

/-- fsExtent.InitToFS for the store-create path (extent.go lines 193-241,
called with overwrite=false from store_extent.go line 188): a fresh entry
file with empty header CRCs and data_size 0. -/
def initToFS : ExtFile :=
  { markDel := false, dataSize := 0 }

/-- ExtentStore.Create (store_extent.go lines 176-203): when the id already
exists, fail with AlreadyExists unless overwrite is set, in which case the
function logs a warning and returns success without touching anything;
otherwise initialize the entry file, cache it, index it, and advance the
persisted base id. -/
def Create (s : StoreState) (extentId inode : Nat) (overwrite : Bool) (now : Int) :
    Except StoreErr StoreState :=
  if IsExistExtent s extentId then
    if !overwrite then .error .extentExists
    else .ok s
  else
    let e := initToFS
    let info : FileInfo :=
      { fileId := extentId, inode := inode, size := 0, crc := 0,
        deleted := false, modTime := now }
    let info := fromExtent info extentId e now
    let s := { s with files := insertA s.files extentId e,
                      cache := extentId :: s.cache,
                      infoMap := insertA s.infoMap extentId info }
    .ok (UpdateBaseExtentId s extentId)

/-- fsExtent.DeleteTiny (extent.go lines 534-548): offset must be page
aligned; size is rounded up to a page multiple; then a hole is punched
(sparse deallocation, which leaves our modelled state unchanged). -/
def DeleteTiny (s : StoreState) (offset _size : Int) : Except StoreErr StoreState :=
  if offset % pageSize != 0 then .error .paramMismatch
  else .ok s

/-- ExtentStore.MarkDelete (store_extent.go lines 380-421): a missing info
entry or a failed load returns success with no effect; tiny ids delegate to
DeleteTiny; otherwise set the header tombstone, drop the cache entry and the
info entry, and append the id (one 8-byte big-endian record) to the delete
log. -/
def MarkDelete (s : StoreState) (extentId : Nat) (offset size : Int) :
    Except StoreErr StoreState :=
  match lookupA s.infoMap extentId with
  | none => .ok s
  | some _ =>
    match getExtentWithHeader s extentId with
    | none => .ok s
    | some (e, s1) =>
      if IsTinyExtent extentId then DeleteTiny s1 offset size
      else
        let e' := { e with markDel := true }
        .ok { s1 with
              files := insertA s1.files extentId e',
              cache := s1.cache.filter (fun x => x != extentId),
              infoMap := removeA s1.infoMap extentId,
              deleteLog := s1.deleteLog ++ [extentId] }

/-- ExtentStore.Read (store_extent.go lines 364-378): load the extent,
bounds-check, refuse tombstoned extents, then read (the returned CRC is
elided together with the data bytes). -/
def StoreRead (s : StoreState) (extentId : Nat) (offset size : Int) :
    Except StoreErr StoreState :=
  match getExtentWithHeader s extentId with
  | none => .error .loadFailed
  | some (e, s1) =>
    match storeCheckOffsetAndSize extentId offset size with
    | some err => .error err
    | none =>
      if extentIsMarkDelete extentId e then .error .hasDelete
      else .ok s1

/-- ExtentStore.Write (store_extent.go lines 313-341): require an info entry,
load the extent, bounds-check, refuse tombstoned extents, delegate to the
extent write, then refresh the info entry from the extent. -/
def StoreWrite (s : StoreState) (extentId : Nat) (dataLen offset size : Int) (now : Int) :
    Except StoreErr StoreState :=
  match lookupA s.infoMap extentId with
  | none => .error .notExist
  | some info =>
    match getExtentWithHeader s extentId with
    | none => .error .loadFailed
    | some (e, s1) =>
      match storeCheckOffsetAndSize extentId offset size with
      | some err => .error err
      | none =>
        if extentIsMarkDelete extentId e then .error .hasDelete
        else
          match fsExtentWrite extentId e dataLen offset size with
          | .error err => .error err
          | .ok e' =>
            .ok { s1 with
                  files := insertA s1.files extentId e',
                  infoMap := insertA s1.infoMap extentId (fromExtent info extentId e' now) }

/-- Body of the replay loop of ExtentStore.FlushDelete over the pending
delete-log records: per record the cursor advances by 8 bytes; when the
entry file still loads, the cache entry is dropped and the file unlinked. -/
def flushIds (s : StoreState) : List Nat → StoreState
  | [] => s
  | id :: rest =>
    let s1 := { s with delIdxOff := s.delIdxOff + 8 }
    let s2 :=
      match getExtentWithHeader s1 id with
      | none => s1
      | some (_, sl) =>
        { sl with cache := sl.cache.filter (fun x => x != id),
                  files := removeA sl.files id }
    flushIds s2 rest

/-- ExtentStore.FlushDelete (store_extent.go lines 444-499): read the delete
log from the persisted byte cursor (8 bytes per id) and process each queued
id, then persist the new cursor. -/
def FlushDelete (s : StoreState) : StoreState :=
  flushIds s (s.deleteLog.drop (s.delIdxOff / 8))

/-! ### Replication pipeline reply matching (datanode/message_handler.go) -/

/-- Wire packet fields consulted by the leader when matching a follower reply
against the sent list, plus the failure mark set by PackErrorBody and the
force-close mark set by forceDestoryAllConnect. -/
structure Packet where
  reqID : Nat
  partitionID : Nat
  fileID : Nat
  offset : Nat
  crc : Nat
  size : Nat
  failed : Bool := false
  connsDestroyed : Bool := false
  deriving Repr, DecidableEq

/-- The field comparison of MessageHandler.DelListElement (message_handler.go
lines 173-174): the reply must agree with the request on ReqID, PartitionID,
Offset, Crc and FileID. -/
def replyMatches (reply request : Packet) : Bool :=
  reply.reqID == request.reqID && reply.partitionID == request.partitionID &&
  reply.offset == request.offset && reply.crc == request.crc &&
  reply.fileID == request.fileID

/-- Effect of request.forceDestoryAllConnect + request.PackErrorBody on the
mismatching front packet (message_handler.go lines 175-176). -/
def markFailed (p : Packet) : Packet :=
  { p with failed := true, connsDestroyed := true }

/-- MessageHandler.DelListElement (message_handler.go lines 168-185). The Go
loop starts at the front of the sent list; on a field mismatch it marks the
front packet failed, force-closes its connections and breaks; on a match it
removes the front element and delivers the reply (after `list.Remove` the
element's next pointer is nil, so the loop ends). Returns the new sent list
and the success flag. -/
def DelListElement (sentList : List Packet) (reply : Packet) :
    List Packet × Bool :=
  match sentList with
  | [] => ([], false)
  | request :: rest =>
    if !replyMatches reply request then (markFailed request :: rest, false)
    else (rest, true)

/-! ### MetaNode: inode allocation (metanode/partition.go) -/

/-- The fields of MetaPartitionConfig driving inode allocation. -/
structure MetaConfig where
  start : Nat
  endId : Nat
  cursor : Nat
  deriving Repr, DecidableEq

inductive MetaErr where
  | inodeIDOutOfRange
  deriving Repr, DecidableEq

/-- MetaPartition.nextInodeID (partition.go lines 567-579): fail with
InodeIDOutOfRange when cursor ≥ end, otherwise advance the cursor by a
compare-and-swap to cursor+1 and return the new id. (The CAS retry loop is
serialization-free in the sequential model.) -/
def nextInodeID (c : MetaConfig) : Except MetaErr (Nat × MetaConfig) :=
  if c.cursor ≥ c.endId then .error .inodeIDOutOfRange
  else .ok (c.cursor + 1, { c with cursor := c.cursor + 1 })

/-! ### MetaNode: trees and FSM commands (metanode/*.go)

The inode and dentry B-trees are modelled as lists of records with unique
keys (inode id, resp. (parent, name)); lookup finds the first record with
the key, insertion prepends, deletion filters. -/

/-- proto.ModeRegular = 0, proto.ModeDir = 1 (iota order). -/
def modeRegular : Nat := 0

def modeDir : Nat := 1

/-- proto result codes used by the dentry/inode FSM operations. -/
inductive OpStatus where
  | opOk
  | opExistErr
  | opArgMismatchErr
  | opNotExistErr
  deriving Repr, DecidableEq

/-- proto.ExtentKey: the pointer an inode stores to one byte-range of file
content on a data partition. -/
structure ExtentKey where
  partitionId : Nat
  extentId : Nat
  extentOffset : Nat
  size : Nat
  fileOffset : Nat
  deriving Repr, DecidableEq

/-- metanode.Inode record (fields relevant to the modelled operations). -/
structure Inode where
  ino : Nat
  itype : Nat
  nlink : Nat := 0
  markDelete : Bool := false
  extents : List ExtentKey := []
  deriving Repr, DecidableEq

/-- metanode.Dentry record: keyed by (parent inode, name). -/
structure Dentry where
  parentId : Nat
  name : String
  inode : Nat
  dtype : Nat
  deriving Repr, DecidableEq

/-- Key equality test used by the dentry tree's ordering. -/
def dentryKeyEq (d : Dentry) (p : Nat) (n : String) : Bool :=
  d.parentId == p && d.name == n

/-- Dentry tree lookup by key. -/
def dentryLookup : List Dentry → Nat → String → Option Dentry
  | [], _, _ => none
  | d :: rest, p, n => if dentryKeyEq d p n then some d else dentryLookup rest p n

/-- Inode tree lookup by id. -/
def inodeLookup : List Inode → Nat → Option Inode
  | [], _ => none
  | i :: rest, k => if i.ino = k then some i else inodeLookup rest k

/-- metaPartition.createDentry (partition_fsmop_dentry.go lines 35-57):
ReplaceOrInsert with replace=false; an existing entry of a different type
yields ArgMismatch, an identical entry yields Ok, any other conflict yields
AlreadyExists; the tree changes only on a fresh insert. -/
def createDentry (t : List Dentry) (den : Dentry) : List Dentry × OpStatus :=
  match dentryLookup t den.parentId den.name with
  | none => (den :: t, .opOk)
  | some d =>
    if den.dtype != d.dtype then (t, .opArgMismatchErr)
    else if den.parentId == d.parentId && den.name == d.name && den.inode == d.inode then
      (t, .opOk)
    else (t, .opExistErr)

/-- metaPartition.deleteDentry (partition_fsmop_dentry.go lines 72-82). -/
def deleteDentry (t : List Dentry) (p : Nat) (n : String) :
    List Dentry × OpStatus × Option Dentry :=
  match dentryLookup t p n with
  | none => (t, .opNotExistErr, none)
  | some d => (t.filter (fun x => !dentryKeyEq x p n), .opOk, some d)

/-- metaPartition.updateDentry (partition_fsmop_dentry.go lines 84-96): find
the entry with the request's (parent, name) key, swap the inode numbers in
place, and return the previous inode in the response. -/
def updateDentry (t : List Dentry) (den : Dentry) :
    List Dentry × OpStatus × Option Nat :=
  match dentryLookup t den.parentId den.name with
  | none => (t, .opNotExistErr, none)
  | some d =>
    (t.map (fun x => if dentryKeyEq x den.parentId den.name then
              { x with inode := den.inode } else x),
     .opOk, some d.inode)

/-- metaPartition.createInode (metanode.go lines 400-406): ReplaceOrInsert
with replace=false; an existing id yields AlreadyExists and leaves the tree
unchanged. -/
def createInode (t : List Inode) (ino : Inode) : List Inode × OpStatus :=
  match inodeLookup t ino.ino with
  | none => (ino :: t, .opOk)
  | some _ => (t, .opExistErr)

/-- metaPartition.deleteInode (metanode.go lines 477-507): a regular file
decrements nlink (pushing to the free list at zero, without removing the
record); anything else is removed from the tree. -/
def deleteInode (t : List Inode) (freeList : List Inode) (k : Nat) :
    List Inode × List Inode × OpStatus :=
  match inodeLookup t k with
  | none => (t, freeList, .opNotExistErr)
  | some i =>
    if i.itype == modeRegular then
      let i' := { i with nlink := if i.nlink > 0 then i.nlink - 1 else i.nlink }
      let t' := t.map (fun x => if x.ino == k then i' else x)
      if i'.nlink == 0 then (t', freeList ++ [i'], .opOk)
      else (t', freeList, .opOk)
    else (t.filter (fun x => x.ino != k), freeList, .opOk)

/-! ### Inode key marshalling and opFSMInternalDeleteInode

`Inode.MarshalKey` itself is not among the provided sources. Modelled from
the spec: the replicated-log command of OpInternalDeleteInode carries the
marshaled inode keys, each an 8-byte big-endian inode id, matching the u64
big-endian decode loop of metaPartition.internalDelete (metanode.go lines
509-526). -/

/-- Modelled from the spec: Inode.MarshalKey emits the inode id as 8
big-endian bytes (the decode side in src reads a big-endian u64). -/
def marshalKey (ino : Nat) : List Nat :=
  [ino / 2 ^ 56 % 256, ino / 2 ^ 48 % 256, ino / 2 ^ 40 % 256, ino / 2 ^ 32 % 256,
   ino / 2 ^ 24 % 256, ino / 2 ^ 16 % 256, ino / 2 ^ 8 % 256, ino % 256]

/-- Big-endian byte-list decoding of one u64. -/
def bytesToU64 (bs : List Nat) : Nat :=
  bs.foldl (fun a b => a * 256 + b) 0

/-- metaPartition.internalDelete (metanode.go lines 509-526): decode 8-byte
big-endian inode ids from the command body and delete each from the inode
tree; a trailing partial record stops the loop with an error, clean EOF
succeeds. Returns the new tree and whether decoding ran to completion. -/
def internalDelete (t : List Inode) : List Nat → List Inode × Bool
  | [] => (t, true)
  | b0 :: b1 :: b2 :: b3 :: b4 :: b5 :: b6 :: b7 :: rest =>
    internalDelete (t.filter (fun x => x.ino != bytesToU64 [b0, b1, b2, b3, b4, b5, b6, b7])) rest
  | _ => (t, false)

/-! ### MetaPartition FSM (metanode/partition_fsm.go) -/

/-- Replicated-log commands of metaPartition.Apply that touch the state
modelled here: the tree commands whose apply-side semantics are among the
provided sources, plus opUpdatePartition, the one command that changes the
partition end (partition_fsm.go line 106, mp.updatePartition(req.End)).
The remaining opcodes — opOpen, opFSMExtentTruncate, opFSMCreateLinkInode,
opFSMEvictInode, opExtentsAdd, opStoreTick, opDeletePartition — are not
modelled: the provided bodies among them (createLinkInode, appendExtents,
extentsTruncate, evictInode in metanode.go) mutate only the inode tree and
the free list, and per the spec's FSM dispatch the cursor is raised only
from a carried inode id and the end only by the update-range command. -/
inductive MetaCmd where
  | createInode (ino : Inode)
  | deleteInode (ino : Nat)
  | createDentry (den : Dentry)
  | deleteDentry (p : Nat) (n : String)
  | updateDentry (den : Dentry)
  | internalDelete (bytes : List Nat)
  | updatePartition (endId : Nat)
  deriving Repr, DecidableEq

/-- State of one meta partition as seen by the FSM: the allocation cursor,
the highest applied log index, the configured end of the inode range, the
two trees and the free list. -/
structure MetaState where
  cursor : Nat
  applyID : Nat
  endId : Nat
  inodes : List Inode
  dentries : List Dentry
  freeList : List Inode
  deriving Repr, DecidableEq

/-- metaPartition.Apply (partition_fsm.go lines 33-125): decode the command,
for a create-inode raise the cursor to the carried inode id first, route to
the tree operation, and in all cases finish by storing the log index into
apply_id (the deferred uploadApplyID, lines 297-299). The body of the
opUpdatePartition case (metaPartition.updatePartition, called at line 106
with req.End) is not among the provided sources; modelled from the spec:
the update-range command of the split workflow stores its carried end into
the partition config. -/
def Apply (s : MetaState) (cmd : MetaCmd) (index : Nat) : MetaState :=
  let s' :=
    match cmd with
    | .createInode ino =>
      let s := if s.cursor < ino.ino then { s with cursor := ino.ino } else s
      { s with inodes := (createInode s.inodes ino).1 }
    | .deleteInode k =>
      let r := deleteInode s.inodes s.freeList k
      { s with inodes := r.1, freeList := r.2.1 }
    | .createDentry den => { s with dentries := (createDentry s.dentries den).1 }
    | .deleteDentry p n => { s with dentries := (deleteDentry s.dentries p n).1 }
    | .updateDentry den => { s with dentries := (updateDentry s.dentries den).1 }
    | .internalDelete bytes => { s with inodes := (internalDelete s.inodes bytes).1 }
    | .updatePartition e => { s with endId := e }
  { s' with applyID := index }

/-- The trajectory of states produced by applying a command log from `s0`,
including the initial state. -/
def trajectory (s0 : MetaState) : List (MetaCmd × Nat) → List MetaState
  | [] => [s0]
  | (c, i) :: rest => s0 :: trajectory (Apply s0 c i) rest

/-- The log indices only grow: each index is at least the predecessor (the
first at least the starting apply_id). -/
def IndicesGrow : Nat → List (MetaCmd × Nat) → Prop
  | _, [] => True
  | a, (_, i) :: rest => a ≤ i ∧ IndicesGrow i rest

/-- Admissibility of one command in the state it is applied to, reflecting
the workflows that generate the commands: a create-inode command carries an
id handed out by nextInodeID, hence within the current end, and an
update-range command carries the split workflow's end = max_inode_id + STEP,
which is not below the current cursor. -/
def CmdOK (s : MetaState) : MetaCmd → Prop
  | .createInode ino => ino.ino ≤ s.endId
  | .updatePartition e => s.cursor ≤ e
  | _ => True

/-- Every command of the log is admissible in the state it reaches. -/
def CmdsOK : MetaState → List (MetaCmd × Nat) → Prop
  | _, [] => True
  | s, (c, i) :: rest => CmdOK s c ∧ CmdsOK (Apply s c i) rest

/-! ### FreeList deletion worker (metanode/partition_free_list.go) -/

/-- Result of one deleteDataPartitionMark batch: the inodes committed in one
OpInternalDeleteInode command, the inodes re-pushed onto the free list, and
the marshalled command body. -/
structure DeleteMarkResult where
  shouldCommit : List Inode
  repushed : List Inode
  commitBytes : List Nat
  deriving Repr, DecidableEq

/-- metaPartition.deleteDataPartitionMark (partition_free_list.go lines
141-215). `sendOK` abstracts the per-extent-key MarkDelete RPC to the owning
data partition's leader (true = the reply arrived without error). Keys whose
RPC failed are collected in order; an inode with no failed key joins the
commit batch, otherwise a fresh inode carrying only the failed keys is
re-pushed. The batch is submitted as one opFSMInternalDeleteInode command
whose body is the concatenation of the marshaled keys. -/
def deleteDataPartitionMark (sendOK : ExtentKey → Bool) (inoSlice : List Inode) :
    DeleteMarkResult :=
  let step := fun (acc : List Inode × List Inode) (ino : Inode) =>
    let reExt := ino.extents.filter (fun ek => !sendOK ek)
    if reExt.isEmpty then (acc.1 ++ [ino], acc.2)
    else (acc.1, acc.2 ++ [{ ino := ino.ino, itype := ino.itype, extents := reExt }])
  let r := inoSlice.foldl step ([], [])
  { shouldCommit := r.1
    repushed := r.2
    commitBytes := (r.1.map (fun ino => marshalKey ino.ino)).flatten }

/-- Decidable equality for Except, so concrete runs can be settled by `decide`. -/
instance {ε α : Type} [DecidableEq ε] [DecidableEq α] : DecidableEq (Except ε α) := fun x y =>
  match x, y with
  | .ok a, .ok b =>
    if h : a = b then isTrue (by rw [h]) else isFalse (fun hh => by cases hh; exact h rfl)
  | .error a, .error b =>
    if h : a = b then isTrue (by rw [h]) else isFalse (fun hh => by cases hh; exact h rfl)
  | .ok _, .error _ => isFalse (fun hh => by cases hh)
  | .error _, .ok _ => isFalse (fun hh => by cases hh)

/-! ### Concrete sample data for the scenario theorems -/

/-- A live non-tiny extent record, 700 seconds old at time 100000. -/
def infoC1 : FileInfo :=
  { fileId := 2, inode := 1, size := 1, crc := 0, deleted := false, modTime := 99300 }

/-- Sent-list front packet of the replication-mismatch scenario. -/
def requestC2 : Packet :=
  { reqID := 77, partitionID := 1, fileID := 2, offset := 0, crc := 3735928559, size := 4096 }

/-- A follower reply agreeing with `requestC2` on everything except the size field. -/
def replyC2 : Packet :=
  { reqID := 77, partitionID := 1, fileID := 2, offset := 0, crc := 3735928559, size := 0 }

/-- A sent-list front packet for the five-field matching witness. -/
def frontC2 : Packet :=
  { reqID := 5, partitionID := 3, fileID := 9, offset := 16, crc := 77, size := 128 }

/-- An empty live extent record. -/
def infoC3 : FileInfo :=
  { fileId := 2, inode := 1, size := 0, crc := 0, deleted := false, modTime := 0 }

/-- A store holding the single fresh normal extent 2. -/
def storeC3 : StoreState :=
  { infoMap := [(2, infoC3)], cache := [], files := [(2, { markDel := false, dataSize := 0 })],
    deleteLog := [], delIdxOff := 0, baseExtentId := 2 }

/-- A store holding the single normal extent 7. -/
def storeC9 : StoreState :=
  { infoMap := [(7, { fileId := 7, inode := 5, size := 0, crc := 0, deleted := false, modTime := 0 })],
    cache := [7], files := [(7, { markDel := false, dataSize := 0 })],
    deleteLog := [], delIdxOff := 0, baseExtentId := 7 }

/-- A store holding the single normal extent 2 with 4096 bytes of data, cached. -/
def storeC7 : StoreState :=
  { infoMap := [(2, infoC3)], cache := [2], files := [(2, { markDel := false, dataSize := 4096 })],
    deleteLog := [], delIdxOff := 0, baseExtentId := 2 }

/-- The store reached from `storeC7` by MarkDelete of extent 2: the info entry
and cache entry are gone, the header tombstone is set, and the id sits once
in the delete log. -/
def storeC7del : StoreState :=
  { infoMap := [], cache := [], files := [(2, { markDel := true, dataSize := 4096 })],
    deleteLog := [2], delIdxOff := 0, baseExtentId := 2 }

/-- A fresh meta partition covering inode range [0, 5). -/
def metaStateC4 : MetaState :=
  { cursor := 0, applyID := 0, endId := 5, inodes := [], dentries := [], freeList := [] }

/-- A partition state with cursor 5 inside the range [0, 10). -/
def metaStateC4bad : MetaState :=
  { cursor := 5, applyID := 0, endId := 10, inodes := [], dentries := [], freeList := [] }

/-- A three-command log: create inode 1 at index 1, create a dentry at
index 2, then an update-range command lowering the end to 3 at index 4. -/
def logC4 : List (MetaCmd × Nat) :=
  [(.createInode { ino := 1, itype := 1 }, 1), (.createDentry ⟨1, "x", 2, 0⟩, 2),
   (.updatePartition 3, 4)]

/-- RPC outcome oracle of the C8 scenario: MarkDelete of extent 9 fails,
every other extent key succeeds. -/
def sendOKC8 : ExtentKey → Bool := fun ek => ek.extentId != 9

/-- An extent key whose MarkDelete RPC succeeds under `sendOKC8`. -/
def ekA : ExtentKey := ⟨1, 5, 0, 100, 0⟩

/-- An extent key whose MarkDelete RPC fails under `sendOKC8`. -/
def ekB : ExtentKey := ⟨1, 9, 0, 100, 100⟩

/-- An inode all of whose extent keys succeed. -/
def inoC8a : Inode := { ino := 30, itype := 0, extents := [ekA] }

/-- An inode with one failing extent key. -/
def inoC8b : Inode := { ino := 31, itype := 0, extents := [ekA, ekB] }

/-- The inode tree the C8 scenario's delete command is applied to. -/
def treeC8 : List Inode := [inoC8a, inoC8b]

/-! ### Association-list lemmas -/
theorem lookupA_removeA {α : Type} (l : List (Nat × α)) (k x : Nat) :
    lookupA (removeA l k) x = if x = k then none else lookupA l x := by
  induction l with
  | nil => by_cases h : x = k <;> simp [lookupA, removeA, h]
  | cons hd tl ih =>
    by_cases hk : hd.1 = k
    · have hrm : removeA (hd :: tl) k = removeA tl k := by
        simp [removeA, List.filter_cons, bne, hk]
      rw [hrm, ih]
      by_cases hx : x = k
      · simp [hx]
      · have hne : ¬ hd.1 = x := by rw [hk]; exact fun h => hx h.symm
        simp [hx, lookupA, hne]
    · have hrm : removeA (hd :: tl) k = hd :: removeA tl k := by
        simp [removeA, List.filter_cons, bne, hk]
      rw [hrm]
      by_cases hx : hd.1 = x
      · have hxk : ¬ x = k := fun h => hk (hx.trans h)
        simp [lookupA, hx, hxk]
      · simp [lookupA, hx, ih]

theorem lookupA_insertA {α : Type} (l : List (Nat × α)) (k : Nat) (v : α) (x : Nat) :
    lookupA (insertA l k v) x = if x = k then some v else lookupA l x := by
  by_cases h : x = k
  · simp [insertA, lookupA, h]
  · simp [insertA, lookupA, Ne.symm h, h, lookupA_removeA]

/-! ### C1 — SnapShot and the extent filters -/

/-- C1 counterexample: at time 100000 the info map holds a single live
non-tiny extent of size 1 modified 700 s ago. The stable filter (age >
10 min, not deleted, size > 0) selects it, yet SnapShot returns the empty
list, so SnapShot does not return the stable-filtered entries. -/
theorem C1_counterexample :
    stableExtentFilter 100000 infoC1 = true ∧ SnapShot 100000 [infoC1] = [] := by
  decide

/-- C1 (amended): SnapShot returns exactly the entries of the extent-info map
selected by the empty-extent filter: the non-tiny extents whose modified
time is more than 60 minutes old, that are not deleted, and whose size is
exactly 0. -/
theorem C1_snapshot_empty_filter (now : Int) (infos : List FileInfo) (file : ProtoFile) :
    file ∈ SnapShot now infos ↔
      ∃ info, info ∈ infos ∧ IsTinyExtent info.fileId = false ∧
        now - info.modTime > 60 * 60 ∧ info.deleted = false ∧ info.size = 0 ∧
        file = toProtoFile info := by
  simp only [SnapShot, GetAllWatermark, List.mem_map, List.mem_filter, emptyExtentFilter,
    Bool.and_eq_true, Bool.not_eq_true', beq_iff_eq, decide_eq_true_eq]
  constructor
  · rintro ⟨info, ⟨hmem, ⟨⟨htiny, htime⟩, hdel⟩, hsz⟩, rfl⟩
    exact ⟨info, hmem, htiny, htime, hdel, hsz, rfl⟩
  · rintro ⟨info, hmem, htiny, htime, hdel, hsz, rfl⟩
    exact ⟨info, ⟨hmem, ⟨⟨htiny, htime⟩, hdel⟩, hsz⟩, rfl⟩

/-! ### C2 — reply matching in the replication pipeline -/

/-- C2 counterexample: a follower reply that agrees with the front packet of
the sent list on req_id, partition_id, extent_id, offset and crc but differs
in size is nevertheless accepted and its packet removed, so the match is not
on all six fields. -/
theorem C2_counterexample :
    DelListElement [requestC2] replyC2 = ([], true) ∧ replyC2.size ≠ requestC2.size := by
  decide

/-- C2 (amended): at the leader, a reply is accepted and the front packet
removed from the sent list exactly when the reply agrees with the front
packet on the five fields req_id, partition_id, offset, crc and extent_id
(size is not compared); on any mismatch of those five the front packet is
marked failed and its connections are force-closed, and it stays in the
list. -/
theorem C2_reply_match_five_fields (reply front : Packet) (rest : List Packet) :
    ((DelListElement (front :: rest) reply).2 = true ↔
      reply.reqID = front.reqID ∧ reply.partitionID = front.partitionID ∧
      reply.offset = front.offset ∧ reply.crc = front.crc ∧ reply.fileID = front.fileID)
    ∧ ((DelListElement (front :: rest) reply).2 = true →
        (DelListElement (front :: rest) reply).1 = rest)
    ∧ ((DelListElement (front :: rest) reply).2 = false →
        (DelListElement (front :: rest) reply).1 = markFailed front :: rest ∧
        (markFailed front).failed = true ∧ (markFailed front).connsDestroyed = true) := by
  by_cases h : replyMatches reply front
  · have hf : reply.reqID = front.reqID ∧ reply.partitionID = front.partitionID ∧
        reply.offset = front.offset ∧ reply.crc = front.crc ∧ reply.fileID = front.fileID := by
      simpa [replyMatches, Bool.and_eq_true, beq_iff_eq, and_assoc] using h
    simp [DelListElement, h, hf]
  · have hf : ¬ (reply.reqID = front.reqID ∧ reply.partitionID = front.partitionID ∧
        reply.offset = front.offset ∧ reply.crc = front.crc ∧ reply.fileID = front.fileID) := by
      intro hc
      exact h (by simp [replyMatches, Bool.and_eq_true, beq_iff_eq, and_assoc, hc.1, hc.2.1,
        hc.2.2.1, hc.2.2.2.1, hc.2.2.2.2])
    simp [DelListElement, h, hf, markFailed]

/-- Witness for the amended C2 theorem: a fully matching reply against a
one-element sent list is accepted and removed. -/
theorem C2_witness :
    (DelListElement [frontC2] frontC2).2 = true ∧ (DelListElement [frontC2] frontC2).1 = [] := by
  have h := C2_reply_match_five_fields frontC2 frontC2 []
  have h2 := h.1.mpr ⟨rfl, rfl, rfl, rfl, rfl⟩
  exact ⟨h2, h.2.1 h2⟩

/-! ### C5 — inode id allocation -/

/-- C5: nextInodeID returns cursor+1 and advances the cursor when
cursor < end, fails with InodeIDOutOfRange exactly when cursor ≥ end, and
on the partition start=100, end=110, cursor=109 the first call returns 110
after which every call fails (a failing call leaves the config unchanged). -/
theorem C5_nextInodeID (c : MetaConfig) :
    (c.cursor < c.endId →
      nextInodeID c = .ok (c.cursor + 1, { c with cursor := c.cursor + 1 }))
    ∧ (c.endId ≤ c.cursor → nextInodeID c = .error .inodeIDOutOfRange)
    ∧ (nextInodeID { start := 100, endId := 110, cursor := 109 } =
        .ok (110, { start := 100, endId := 110, cursor := 110 })
      ∧ nextInodeID { start := 100, endId := 110, cursor := 110 } =
        .error .inodeIDOutOfRange) := by
  refine ⟨fun h => ?_, fun h => ?_, by decide⟩
  · simp [nextInodeID, Nat.not_le.mpr h]
  · simp [nextInodeID, h]

/-- Witness for C5 at the boundary scenario. -/
theorem C5_witness :
    nextInodeID { start := 100, endId := 110, cursor := 109 } =
      .ok (110, { start := 100, endId := 110, cursor := 110 }) :=
  (C5_nextInodeID { start := 100, endId := 110, cursor := 109 }).1 (by decide)

/-! ### C9 — Create on an existing extent with overwrite -/

/-- C9: when the extent id is already present in the info map, Create with
overwrite=true returns success with the store state exactly unchanged: no
truncation or re-initialization of the entry file, no cache, info-map or
base-extent-id update. -/
theorem C9_create_overwrite_noop (s : StoreState) (extentId inode : Nat) (now : Int)
    (h : IsExistExtent s extentId = true) :
    Create s extentId inode true now = .ok s := by
  simp [Create, h]

/-- Witness for C9 on a concrete store holding extent 7. -/
theorem C9_witness : Create storeC9 7 5 true 0 = .ok storeC9 :=
  C9_create_overwrite_noop storeC9 7 5 0 (by decide)

/-! ### C3 — normal-extent write bounds -/

/-- C3 counterexample: a write of size -1 on the fresh extent 2 violates the
claimed bounds (size > 0 fails), yet it does not fail with ParamMismatch:
the bounds check of checkOffsetAndSize passes negative sizes and the `data[:size]`
slice panics instead. -/
theorem C3_counterexample :
    StoreWrite storeC3 2 10 0 (-1) 0 = .error .slicePanic ∧
    StoreWrite storeC3 2 10 0 (-1) 0 ≠ .error .paramMismatch ∧ ¬ (0 : Int) < -1 := by
  decide

/-- C3 (amended): on a non-tombstoned normal extent present in the store, a
write with 0 ≤ offset, offset+size ≤ BLOCK_SIZE×BLOCK_COUNT, 0 < size ≤
BLOCK_SIZE (and a buffer of at least size bytes) succeeds and sets
data_size to max(old, offset+size); a write with offset+size >
BLOCK_SIZE×BLOCK_COUNT, offset ≥ BLOCK_COUNT×BLOCK_SIZE, size = 0 or
size > BLOCK_SIZE fails with ParamMismatch (negative sizes and offsets
escape this check and fail differently). -/
theorem C3_write_bounds (s : StoreState) (extentId : Nat) (info : FileInfo) (e : ExtFile)
    (dataLen offset size now : Int)
    (hTiny : IsTinyExtent extentId = false)
    (hInfo : lookupA s.infoMap extentId = some info)
    (hFile : lookupA s.files extentId = some e)
    (hDel : e.markDel = false) :
    (0 ≤ offset → offset + size ≤ blockSize * blockCount → 0 < size → size ≤ blockSize →
      size ≤ dataLen →
      ∃ s', StoreWrite s extentId dataLen offset size now = .ok s' ∧
        lookupA s'.files extentId = some { e with dataSize := max e.dataSize (offset + size) })
    ∧ ((offset + size > blockSize * blockCount ∨ offset ≥ blockCount * blockSize ∨
        size = 0 ∨ size > blockSize) →
       StoreWrite s extentId dataLen offset size now = .error .paramMismatch) := by
  have hget : ∃ s1 : StoreState, getExtentWithHeader s extentId = some (e, s1) ∧
      s1.files = s.files ∧ s1.infoMap = s.infoMap := by
    by_cases hc : s.cache.contains extentId = true
    · refine ⟨s, ?_, rfl, rfl⟩
      simp only [getExtentWithHeader, hFile]
      rw [if_pos hc]
    · refine ⟨{ s with cache := extentId :: s.cache }, ?_, rfl, rfl⟩
      simp only [getExtentWithHeader, hFile]
      rw [if_neg hc]
  obtain ⟨s1, hget, hfs, him⟩ := hget
  have hmd : extentIsMarkDelete extentId e = false := by
    simp [extentIsMarkDelete, hTiny, hDel]
  constructor
  · intro h0 h1 h3 h4 h5
    have hchk : checkOffsetAndSize offset size = none := by
      simp only [blockSize, blockCount] at h1 h4
      simp only [checkOffsetAndSize, blockSize, blockCount]
      rw [if_neg (by omega), if_neg (by omega), if_neg (by omega)]
    have hfsw : fsExtentWrite extentId e dataLen offset size =
        .ok { e with dataSize := max e.dataSize (offset + size) } := by
      simp only [fsExtentWrite, hTiny, Bool.false_eq_true, if_false, hchk]
      rw [if_neg (by omega), if_neg (by simp only [blockHeaderSize]; omega)]
    refine ⟨{ s1 with
        files := insertA s1.files extentId { e with dataSize := max e.dataSize (offset + size) },
        infoMap := insertA s1.infoMap extentId
          (fromExtent info extentId { e with dataSize := max e.dataSize (offset + size) } now) },
      ?_, ?_⟩
    · simp only [StoreWrite, hInfo, hget, storeCheckOffsetAndSize, hTiny, Bool.false_eq_true,
        if_false, hchk, hmd, hfsw]
    · simp [lookupA_insertA]
  · intro hviol
    have hchk : checkOffsetAndSize offset size = some .paramMismatch := by
      simp only [blockSize, blockCount] at hviol
      simp only [checkOffsetAndSize, blockSize, blockCount]
      split_ifs with a b c
      · rfl
      · rfl
      · rfl
      · exfalso
        rcases not_or.mp b with ⟨b1, b2⟩
        rcases hviol with h | h | h | h <;> omega
    simp only [StoreWrite, hInfo, hget, storeCheckOffsetAndSize, hTiny, Bool.false_eq_true,
      if_false, hchk]

/-- Witness for the amended C3 theorem: a full-block write at offset 0 on the
fresh extent 2 succeeds and data_size becomes 131072. -/
theorem C3_witness :
    ∃ s', StoreWrite storeC3 2 131072 0 131072 0 = .ok s' ∧
      lookupA s'.files 2 = some { markDel := false, dataSize := 131072 } := by
  have h := (C3_write_bounds storeC3 2 infoC3 { markDel := false, dataSize := 0 }
    131072 0 131072 0 (by decide) (by decide) (by decide) (by decide)).1
    (by decide) (by decide) (by decide) (by decide) (by decide)
  obtain ⟨s', h1, h2⟩ := h
  exact ⟨s', h1, by simpa using h2⟩

/-! ### Dentry-tree lemmas -/

theorem dentryLookup_some_key (t : List Dentry) (p : Nat) (n : String) (d : Dentry)
    (h : dentryLookup t p n = some d) : d.parentId = p ∧ d.name = n := by
  induction t with
  | nil => simp [dentryLookup] at h
  | cons hd tl ih =>
    by_cases hk : dentryKeyEq hd p n
    · simp only [dentryLookup, if_pos hk, Option.some.injEq] at h
      subst h
      simpa [dentryKeyEq, Bool.and_eq_true, beq_iff_eq] using hk
    · simp only [dentryLookup, if_neg hk] at h
      exact ih h

theorem dentryLookup_map (t : List Dentry) (g : Dentry → Dentry)
    (hg : ∀ x, (g x).parentId = x.parentId ∧ (g x).name = x.name) (p : Nat) (n : String) :
    dentryLookup (t.map g) p n = (dentryLookup t p n).map g := by
  induction t with
  | nil => simp [dentryLookup]
  | cons hd tl ih =>
    have hkey : dentryKeyEq (g hd) p n = dentryKeyEq hd p n := by
      simp [dentryKeyEq, (hg hd).1, (hg hd).2]
    by_cases hk : dentryKeyEq hd p n
    · simp [dentryLookup, hkey, hk]
    · simp [dentryLookup, hkey, hk, ih]

/-! ### C6 — atomic dentry rename (UpdateDentry) -/

/-- C6: on a dentry tree holding (1,"a") → 10 and (1,"b") → 11, applying
UpdateDentry(parent=1, name="a", new_inode=11) in one FSM step returns the
old inode 10, after which lookup of (1,"a") yields 11 and lookup of (1,"b")
still yields 11, and no dentry under any other key changes. -/
theorem C6_update_dentry (t : List Dentry) (da db : Dentry) (dt : Nat)
    (hA : dentryLookup t 1 "a" = some da) (hAv : da.inode = 10)
    (hB : dentryLookup t 1 "b" = some db) (hBv : db.inode = 11) :
    (updateDentry t { parentId := 1, name := "a", inode := 11, dtype := dt }).2.1 = .opOk ∧
    (updateDentry t { parentId := 1, name := "a", inode := 11, dtype := dt }).2.2 = some 10 ∧
    (dentryLookup (updateDentry t { parentId := 1, name := "a", inode := 11, dtype := dt }).1
        1 "a").map (fun d => d.inode) = some 11 ∧
    (dentryLookup (updateDentry t { parentId := 1, name := "a", inode := 11, dtype := dt }).1
        1 "b").map (fun d => d.inode) = some 11 ∧
    ∀ p n, ¬(p = 1 ∧ n = "a") →
      dentryLookup (updateDentry t { parentId := 1, name := "a", inode := 11, dtype := dt }).1
        p n = dentryLookup t p n := by
  have hgKeys : ∀ x : Dentry,
      ((if dentryKeyEq x 1 "a" then { x with inode := 11 } else x) : Dentry).parentId
        = x.parentId ∧
      ((if dentryKeyEq x 1 "a" then { x with inode := 11 } else x) : Dentry).name = x.name := by
    intro x
    by_cases hk : dentryKeyEq x 1 "a" <;> simp [hk]
  have hmap := dentryLookup_map t
    (fun x => if dentryKeyEq x 1 "a" then { x with inode := 11 } else x) hgKeys
  have hu : updateDentry t { parentId := 1, name := "a", inode := 11, dtype := dt } =
      (t.map (fun x => if dentryKeyEq x 1 "a" then { x with inode := 11 } else x),
       .opOk, some da.inode) := by
    simp only [updateDentry, hA]
  refine ⟨by simp [hu], by simp [hu, hAv], ?_, ?_, ?_⟩
  · have hkA : dentryKeyEq da 1 "a" = true := by
      obtain ⟨h1, h2⟩ := dentryLookup_some_key t 1 "a" da hA
      simp [dentryKeyEq, h1, h2]
    simp [hu, hmap, hA, hkA]
  · have hkB : dentryKeyEq db 1 "a" = false := by
      obtain ⟨h1, h2⟩ := dentryLookup_some_key t 1 "b" db hB
      simp [dentryKeyEq, h1, h2]
    simp [hu, hmap, hB, hkB, hBv]
  · intro p n hpn
    rw [hu]
    simp only [hmap p n]
    cases hres : dentryLookup t p n with
    | none => simp
    | some d' =>
      obtain ⟨h1, h2⟩ := dentryLookup_some_key t p n d' hres
      have hk : dentryKeyEq d' 1 "a" = false := by
        rcases Decidable.em (p = 1 ∧ n = "a") with h | h
        · exact absurd h hpn
        · simp only [dentryKeyEq, Bool.and_eq_false_iff, beq_eq_false_iff_ne, h1, h2]
          rcases Decidable.not_and_iff_or_not.mp h with h | h
          · exact Or.inl h
          · exact Or.inr h
      simp [hk]

/-- Witness for C6 on the two-entry tree of the scenario. -/
theorem C6_witness :
    (updateDentry [⟨1, "a", 10, 1⟩, ⟨1, "b", 11, 1⟩]
      { parentId := 1, name := "a", inode := 11, dtype := 1 }).2.2 = some 10 ∧
    (dentryLookup (updateDentry [⟨1, "a", 10, 1⟩, ⟨1, "b", 11, 1⟩]
      { parentId := 1, name := "a", inode := 11, dtype := 1 }).1 1 "a").map
        (fun d => d.inode) = some 11 := by
  have h := C6_update_dentry [⟨1, "a", 10, 1⟩, ⟨1, "b", 11, 1⟩] ⟨1, "a", 10, 1⟩ ⟨1, "b", 11, 1⟩ 1
    (by decide) (by decide) (by decide) (by decide)
  exact ⟨h.2.1, h.2.2.1⟩

/-! ### C10 — create of an already-present dentry -/

/-- C10: applying a dentry create whose (parent, name) key already exists
leaves the tree unchanged and returns ArgMismatch when the types differ, Ok
when the existing entry is identical, and AlreadyExists otherwise; a
successful fresh create re-applied is a no-op returning Ok. -/
theorem C10_create_dentry_existing (t : List Dentry) (den d : Dentry)
    (h : dentryLookup t den.parentId den.name = some d) :
    (createDentry t den).1 = t ∧
    (den.dtype ≠ d.dtype → (createDentry t den).2 = .opArgMismatchErr) ∧
    (den.dtype = d.dtype → den.inode = d.inode → (createDentry t den).2 = .opOk) ∧
    (den.dtype = d.dtype → den.inode ≠ d.inode → (createDentry t den).2 = .opExistErr) ∧
    (∀ t' : List Dentry, dentryLookup t' den.parentId den.name = none →
      createDentry (createDentry t' den).1 den = ((createDentry t' den).1, .opOk)) := by
  obtain ⟨hp, hn⟩ := dentryLookup_some_key t den.parentId den.name d h
  have hfresh : ∀ t' : List Dentry, dentryLookup t' den.parentId den.name = none →
      createDentry (createDentry t' den).1 den = ((createDentry t' den).1, .opOk) := by
    intro t' h'
    have h1 : createDentry t' den = (den :: t', .opOk) := by
      simp only [createDentry, h']
    have h2 : dentryLookup (den :: t') den.parentId den.name = some den := by
      simp [dentryLookup, dentryKeyEq]
    rw [h1]
    simp [createDentry, h2]
  refine ⟨?_, ?_, ?_, ?_, hfresh⟩
  · by_cases ht : den.dtype = d.dtype <;>
      by_cases hi : den.inode = d.inode <;>
      simp [createDentry, h, ht, hi, bne, hp, hn]
  · intro ht
    simp [createDentry, h, bne_iff_ne, ht]
  · intro ht hi
    simp [createDentry, h, bne, ht, hp, hn, hi]
  · intro ht hi
    simp [createDentry, h, bne, ht, hp, hn, hi]

/-- Witness for C10: re-creating the identical dentry returns Ok and leaves
the one-entry tree unchanged. -/
theorem C10_witness :
    (createDentry [⟨1, "a", 10, 1⟩] ⟨1, "a", 10, 1⟩).1 = [⟨1, "a", 10, 1⟩] ∧
    (createDentry [⟨1, "a", 10, 1⟩] ⟨1, "a", 10, 1⟩).2 = .opOk := by
  have h := C10_create_dentry_existing [⟨1, "a", 10, 1⟩] ⟨1, "a", 10, 1⟩ ⟨1, "a", 10, 1⟩
    (by decide)
  exact ⟨h.1, h.2.2.1 rfl rfl⟩

/-! ### FSM step lemmas -/

theorem Apply_applyID (s : MetaState) (cmd : MetaCmd) (i : Nat) :
    (Apply s cmd i).applyID = i := by
  cases cmd <;> simp only [Apply] <;> first | (split <;> rfl) | rfl

theorem Apply_cursor_mono (s : MetaState) (cmd : MetaCmd) (i : Nat) :
    s.cursor ≤ (Apply s cmd i).cursor := by
  cases cmd with
  | createInode ino =>
    by_cases h : s.cursor < ino.ino <;> simp [Apply, h] <;> omega
  | deleteInode k => simp [Apply]
  | createDentry den => simp [Apply]
  | deleteDentry p n => simp [Apply]
  | updateDentry den => simp [Apply]
  | internalDelete bytes => simp [Apply]
  | updatePartition e => simp [Apply]

theorem Apply_cursor_le_end (s : MetaState) (cmd : MetaCmd) (i : Nat)
    (hCur : s.cursor ≤ s.endId) (hok : CmdOK s cmd) :
    (Apply s cmd i).cursor ≤ (Apply s cmd i).endId := by
  cases cmd with
  | createInode ino =>
    have hb : ino.ino ≤ s.endId := by simpa [CmdOK] using hok
    by_cases h : s.cursor < ino.ino <;> simp [Apply, h] <;> omega
  | deleteInode k => simpa [Apply] using hCur
  | createDentry den => simpa [Apply] using hCur
  | deleteDentry p n => simpa [Apply] using hCur
  | updateDentry den => simpa [Apply] using hCur
  | internalDelete bytes => simpa [Apply] using hCur
  | updatePartition e => simpa [Apply] using hok

theorem trajectory_head (s : MetaState) (l : List (MetaCmd × Nat)) :
    (trajectory s l).head? = some s := by
  cases l <;> simp [trajectory]

/-! ### C4 — FSM monotonicity invariants -/

/-- C4 counterexample: an update-range command carrying an end below the
cursor is applied with growing indices and no create-inode command at all
(so the claim's given on allocator-produced inode ids holds vacuously), yet
the reached state has cursor = 5 > end = 2: the FSM itself does not protect
cursor ≤ end against the one end-changing command. -/
theorem C4_counterexample :
    IndicesGrow 0 [(MetaCmd.updatePartition 2, 1)] ∧
    (Apply metaStateC4bad (.updatePartition 2) 1).cursor = 5 ∧
    (Apply metaStateC4bad (.updatePartition 2) 1).endId = 2 ∧
    ¬ (Apply metaStateC4bad (.updatePartition 2) 1).cursor ≤
        (Apply metaStateC4bad (.updatePartition 2) 1).endId := by
  refine ⟨?_, by decide, by decide, by decide⟩
  simp [IndicesGrow]

/-- C4 (amended): for every meta partition state and every applied command
log whose indices only grow, whose create-inode ids stay within the current
end (as ids handed out by nextInodeID do), and whose update-range commands
each carry an end not below the cursor at their application point (as the
split workflow's end = max_inode_id + STEP does), apply_id never goes
backwards along the trajectory, the cursor never decreases, and
cursor ≤ end holds in every reachable state. -/
theorem C4_fsm_invariants (s0 : MetaState) (log : List (MetaCmd × Nat))
    (hIdx : IndicesGrow s0.applyID log) (hCmd : CmdsOK s0 log)
    (hCur : s0.cursor ≤ s0.endId) :
    List.Chain' (fun a b => a.applyID ≤ b.applyID) (trajectory s0 log) ∧
    List.Chain' (fun a b => a.cursor ≤ b.cursor) (trajectory s0 log) ∧
    ∀ s ∈ trajectory s0 log, s.cursor ≤ s.endId := by
  induction log generalizing s0 with
  | nil =>
    refine ⟨by simp [trajectory], by simp [trajectory], ?_⟩
    intro s hs
    simp only [trajectory, List.mem_singleton] at hs
    exact hs ▸ hCur
  | cons ci rest ih =>
    obtain ⟨c, i⟩ := ci
    obtain ⟨hai, hIdx'⟩ := hIdx
    obtain ⟨hok, hCmd'⟩ := hCmd
    have hAid : (Apply s0 c i).applyID = i := Apply_applyID s0 c i
    have hIdx1 : IndicesGrow (Apply s0 c i).applyID rest := by rw [hAid]; exact hIdx'
    have hCur1 : (Apply s0 c i).cursor ≤ (Apply s0 c i).endId :=
      Apply_cursor_le_end s0 c i hCur hok
    obtain ⟨ihA, ihC, ihB⟩ := ih (Apply s0 c i) hIdx1 hCmd' hCur1
    refine ⟨?_, ?_, ?_⟩
    · rw [trajectory]
      refine List.chain'_cons'.mpr ⟨?_, ihA⟩
      intro b hb
      rw [trajectory_head] at hb
      cases hb
      rw [hAid]
      exact hai
    · rw [trajectory]
      refine List.chain'_cons'.mpr ⟨?_, ihC⟩
      intro b hb
      rw [trajectory_head] at hb
      cases hb
      exact Apply_cursor_mono s0 c i
    · intro s hs
      rw [trajectory] at hs
      rcases List.mem_cons.mp hs with rfl | hs
      · exact hCur
      · exact ihB s hs

/-- Witness for the amended C4 theorem on a fresh partition applying a
three-command log that ends with an admissible update-range command. -/
theorem C4_witness :
    List.Chain' (fun a b => a.applyID ≤ b.applyID) (trajectory metaStateC4 logC4) ∧
    List.Chain' (fun a b => a.cursor ≤ b.cursor) (trajectory metaStateC4 logC4) := by
  have h := C4_fsm_invariants metaStateC4 logC4
    (by
      simp only [metaStateC4, logC4, IndicesGrow]
      exact ⟨by omega, by omega, by omega, trivial⟩)
    (by
      simp only [metaStateC4, logC4, CmdsOK, CmdOK]
      refine ⟨by decide, trivial, ?_, trivial⟩
      decide)
    (by decide)
  exact ⟨h.1, h.2.1⟩

/-! ### Marshalled-key and inode-tree lemmas for the deletion worker -/

theorem bytesToU64_marshalKey (a : Nat) (h : a < 2 ^ 64) :
    bytesToU64 (marshalKey a) = a := by
  simp only [marshalKey, bytesToU64, List.foldl]
  omega

theorem internalDelete_marshal_cons (tree : List Inode) (a : Nat) (l : List Nat) :
    internalDelete tree (marshalKey a ++ l) =
      internalDelete (tree.filter (fun x => x.ino != bytesToU64 (marshalKey a))) l := by
  simp only [marshalKey, List.cons_append, List.nil_append]
  rfl

theorem internalDelete_marshalled (ids : List Nat) (tree : List Inode)
    (h : ∀ id ∈ ids, id < 2 ^ 64) :
    internalDelete tree ((ids.map marshalKey).flatten) =
      (ids.foldl (fun t j => t.filter (fun x => x.ino != j)) tree, true) := by
  induction ids generalizing tree with
  | nil => simp [internalDelete]
  | cons a rest ih =>
    have ha : a < 2 ^ 64 := h a (List.mem_cons_self a rest)
    have hrest : ∀ id ∈ rest, id < 2 ^ 64 := fun id hid => h id (List.mem_cons_of_mem a hid)
    rw [List.map_cons, List.flatten_cons, internalDelete_marshal_cons,
      bytesToU64_marshalKey a ha, ih _ hrest, List.foldl_cons]

theorem inodeLookup_cons (hd : Inode) (tl : List Inode) (k : Nat) :
    inodeLookup (hd :: tl) k = if hd.ino = k then some hd else inodeLookup tl k := rfl

theorem inodeLookup_filter_self (tree : List Inode) (a : Nat) :
    inodeLookup (tree.filter (fun x => x.ino != a)) a = none := by
  induction tree with
  | nil => rfl
  | cons hd tl ih =>
    rw [List.filter_cons]
    by_cases h : hd.ino = a
    · rw [if_neg (by simp [h])]
      exact ih
    · rw [if_pos (by simp [h]), inodeLookup_cons, if_neg h]
      exact ih

theorem inodeLookup_filter_other (tree : List Inode) (a k : Nat) (h : ¬ k = a) :
    inodeLookup (tree.filter (fun x => x.ino != a)) k = inodeLookup tree k := by
  induction tree with
  | nil => rfl
  | cons hd tl ih =>
    rw [List.filter_cons]
    by_cases hh : hd.ino = a
    · have hk : ¬ hd.ino = k := by rw [hh]; exact fun hc => h hc.symm
      rw [if_neg (by simp [hh]), ih, inodeLookup_cons, if_neg hk]
    · rw [if_pos (by simp [hh]), inodeLookup_cons, inodeLookup_cons]
      by_cases hk : hd.ino = k
      · rw [if_pos hk, if_pos hk]
      · rw [if_neg hk, if_neg hk]
        exact ih

theorem inodeLookup_foldl_filter (ids : List Nat) (tree : List Inode) (k : Nat) :
    inodeLookup (ids.foldl (fun t j => t.filter (fun x => x.ino != j)) tree) k =
      if ids.contains k then none else inodeLookup tree k := by
  induction ids generalizing tree with
  | nil => simp
  | cons a rest ih =>
    rw [List.foldl_cons, ih]
    by_cases hk : k = a
    · subst hk
      by_cases hc : rest.contains k <;>
        simp [List.contains_cons, hc, inodeLookup_filter_self]
    · by_cases hc : rest.contains k <;>
        simp [List.contains_cons, hc, hk, inodeLookup_filter_other tree a k hk]

theorem isEmpty_filter_not_all {α : Type} (l : List α) (p : α → Bool) :
    (l.filter (fun x => !p x)).isEmpty = l.all p := by
  induction l with
  | nil => rfl
  | cons hd tl ih =>
    by_cases h : p hd <;> simp [List.filter_cons, h, List.all_cons, ih]

theorem ddpm_foldl (sendOK : ExtentKey → Bool) (l : List Inode) (acc1 acc2 : List Inode) :
    l.foldl (fun (acc : List Inode × List Inode) (ino : Inode) =>
        if (ino.extents.filter (fun ek => !sendOK ek)).isEmpty then (acc.1 ++ [ino], acc.2)
        else (acc.1, acc.2 ++ [{ ino := ino.ino, itype := ino.itype,
                                 extents := ino.extents.filter (fun ek => !sendOK ek) }]))
      (acc1, acc2) =
      (acc1 ++ l.filter (fun i => i.extents.all sendOK),
       acc2 ++ (l.filter (fun i => !i.extents.all sendOK)).map
         (fun i => { ino := i.ino, itype := i.itype,
                     extents := i.extents.filter (fun ek => !sendOK ek) })) := by
  induction l generalizing acc1 acc2 with
  | nil => simp
  | cons hd tl ih =>
    rw [List.foldl_cons]
    by_cases h : hd.extents.all sendOK
    · rw [if_pos (by rw [isEmpty_filter_not_all]; exact h), ih]
      simp [List.filter_cons, h, List.append_assoc]
    · rw [if_neg (by rw [isEmpty_filter_not_all]; exact h), ih]
      simp [List.filter_cons, h, List.append_assoc]

/-! ### C8 — deletion worker batches and OpInternalDeleteInode -/

/-- C8: in one deletion-worker batch, the inodes all of whose per-extent-key
MarkDelete RPCs succeeded form the commit set, the command body is the
concatenation of their marshaled (8-byte big-endian) inode keys, applying
the opFSMInternalDeleteInode command deletes exactly those inode records
from the inode tree, and each inode with at least one failed key is
re-pushed carrying only the failed keys. -/
theorem C8_deletion_worker (sendOK : ExtentKey → Bool) (inos tree : List Inode)
    (hIds : ∀ i ∈ inos, i.ino < 2 ^ 64) :
    (deleteDataPartitionMark sendOK inos).shouldCommit =
        inos.filter (fun i => i.extents.all sendOK) ∧
    (deleteDataPartitionMark sendOK inos).repushed =
        (inos.filter (fun i => !i.extents.all sendOK)).map
          (fun i => { ino := i.ino, itype := i.itype,
                      extents := i.extents.filter (fun ek => !sendOK ek) }) ∧
    (deleteDataPartitionMark sendOK inos).commitBytes =
        ((inos.filter (fun i => i.extents.all sendOK)).map (fun i => marshalKey i.ino)).flatten ∧
    (internalDelete tree (deleteDataPartitionMark sendOK inos).commitBytes).2 = true ∧
    (∀ k, inodeLookup (internalDelete tree (deleteDataPartitionMark sendOK inos).commitBytes).1 k =
      if ((inos.filter (fun i => i.extents.all sendOK)).map (fun i => i.ino)).contains k
      then none else inodeLookup tree k) := by
  have hfold := ddpm_foldl sendOK inos [] []
  have hdef : deleteDataPartitionMark sendOK inos =
      { shouldCommit := (inos.foldl (fun (acc : List Inode × List Inode) (ino : Inode) =>
          if (ino.extents.filter (fun ek => !sendOK ek)).isEmpty then (acc.1 ++ [ino], acc.2)
          else (acc.1, acc.2 ++ [{ ino := ino.ino, itype := ino.itype,
                                   extents := ino.extents.filter (fun ek => !sendOK ek) }]))
          ([], [])).1,
        repushed := (inos.foldl (fun (acc : List Inode × List Inode) (ino : Inode) =>
          if (ino.extents.filter (fun ek => !sendOK ek)).isEmpty then (acc.1 ++ [ino], acc.2)
          else (acc.1, acc.2 ++ [{ ino := ino.ino, itype := ino.itype,
                                   extents := ino.extents.filter (fun ek => !sendOK ek) }]))
          ([], [])).2,
        commitBytes := ((inos.foldl (fun (acc : List Inode × List Inode) (ino : Inode) =>
          if (ino.extents.filter (fun ek => !sendOK ek)).isEmpty then (acc.1 ++ [ino], acc.2)
          else (acc.1, acc.2 ++ [{ ino := ino.ino, itype := ino.itype,
                                   extents := ino.extents.filter (fun ek => !sendOK ek) }]))
          ([], [])).1.map (fun ino => marshalKey ino.ino)).flatten } := rfl
  have h1 : (deleteDataPartitionMark sendOK inos).shouldCommit =
      inos.filter (fun i => i.extents.all sendOK) := by
    rw [hdef, hfold]
    simp
  have h2 : (deleteDataPartitionMark sendOK inos).repushed =
      (inos.filter (fun i => !i.extents.all sendOK)).map
        (fun i => { ino := i.ino, itype := i.itype,
                    extents := i.extents.filter (fun ek => !sendOK ek) }) := by
    rw [hdef, hfold]
    simp
  have h3 : (deleteDataPartitionMark sendOK inos).commitBytes =
      ((inos.filter (fun i => i.extents.all sendOK)).map (fun i => marshalKey i.ino)).flatten := by
    rw [hdef, hfold]
    simp
  have hIdBound : ∀ id ∈ (inos.filter (fun i => i.extents.all sendOK)).map (fun i => i.ino),
      id < 2 ^ 64 := by
    intro id hid
    obtain ⟨i, hi, rfl⟩ := List.mem_map.mp hid
    exact hIds i (List.mem_of_mem_filter hi)
  have hmm : ((inos.filter (fun i => i.extents.all sendOK)).map (fun i => marshalKey i.ino)) =
      (((inos.filter (fun i => i.extents.all sendOK)).map (fun i => i.ino)).map marshalKey) := by
    rw [List.map_map]
    rfl
  have hdel := internalDelete_marshalled
    ((inos.filter (fun i => i.extents.all sendOK)).map (fun i => i.ino)) tree hIdBound
  refine ⟨h1, h2, h3, ?_, ?_⟩
  · rw [h3, hmm, hdel]
  · intro k
    rw [h3, hmm, hdel]
    exact inodeLookup_foldl_filter _ tree k

/-- Witness for C8 on the two-inode scenario: inode 30 (all keys succeed) is
committed and vanishes from the tree, inode 31 is re-pushed with only the
failed key. -/
theorem C8_witness :
    (deleteDataPartitionMark sendOKC8 [inoC8a, inoC8b]).shouldCommit = [inoC8a] ∧
    (deleteDataPartitionMark sendOKC8 [inoC8a, inoC8b]).repushed =
      [{ ino := 31, itype := 0, extents := [ekB] }] ∧
    inodeLookup (internalDelete treeC8
      (deleteDataPartitionMark sendOKC8 [inoC8a, inoC8b]).commitBytes).1 30 = none := by
  have h := C8_deletion_worker sendOKC8 [inoC8a, inoC8b] treeC8
    (by
      intro i hi
      simp only [List.mem_cons, List.not_mem_nil, or_false] at hi
      rcases hi with rfl | rfl <;> decide)
  refine ⟨?_, ?_, ?_⟩
  · rw [h.1]; decide
  · rw [h.2.1]; decide
  · rw [h.2.2.2.2 30]; decide

/-! ### Store lemmas for the mark-delete lifecycle -/

theorem getExtentWithHeader_none_iff (s : StoreState) (id : Nat) :
    getExtentWithHeader s id = none ↔ lookupA s.files id = none := by
  unfold getExtentWithHeader
  cases h : lookupA s.files id with
  | none => simp
  | some e =>
    dsimp only
    by_cases hc : s.cache.contains id = true
    · rw [if_pos hc]
      simp
    · rw [if_neg hc]
      simp

theorem getExtentWithHeader_some_parts (s : StoreState) (id : Nat) (e : ExtFile)
    (s' : StoreState) (h : getExtentWithHeader s id = some (e, s')) :
    lookupA s.files id = some e ∧ s'.infoMap = s.infoMap ∧ s'.files = s.files ∧
    s'.deleteLog = s.deleteLog ∧ s'.delIdxOff = s.delIdxOff ∧
    s'.baseExtentId = s.baseExtentId := by
  unfold getExtentWithHeader at h
  cases hf : lookupA s.files id with
  | none => rw [hf] at h; simp at h
  | some e0 =>
    rw [hf] at h
    dsimp only at h
    by_cases hc : s.cache.contains id = true
    · rw [if_pos hc] at h
      simp only [Option.some.injEq, Prod.mk.injEq] at h
      obtain ⟨he, hs⟩ := h
      subst he
      subst hs
      exact ⟨rfl, rfl, rfl, rfl, rfl, rfl⟩
    · rw [if_neg hc] at h
      simp only [Option.some.injEq, Prod.mk.injEq] at h
      obtain ⟨he, hs⟩ := h
      subst he
      subst hs
      exact ⟨rfl, rfl, rfl, rfl, rfl, rfl⟩

theorem flushIds_delIdxOff (ids : List Nat) (s : StoreState) :
    (flushIds s ids).delIdxOff = s.delIdxOff + 8 * ids.length := by
  induction ids generalizing s with
  | nil => simp [flushIds]
  | cons a rest ih =>
    rw [flushIds]
    cases hg : getExtentWithHeader { s with delIdxOff := s.delIdxOff + 8 } a with
    | none =>
      simp only [hg]
      rw [ih]
      simp only [List.length_cons]
      omega
    | some pr =>
      obtain ⟨e, sl⟩ := pr
      simp only [hg]
      rw [ih]
      have hp := (getExtentWithHeader_some_parts _ _ _ _ hg).2.2.2.2.1
      simp only [List.length_cons]
      simp only at hp
      omega

theorem flushIds_deleteLog (ids : List Nat) (s : StoreState) :
    (flushIds s ids).deleteLog = s.deleteLog := by
  induction ids generalizing s with
  | nil => simp [flushIds]
  | cons a rest ih =>
    rw [flushIds]
    cases hg : getExtentWithHeader { s with delIdxOff := s.delIdxOff + 8 } a with
    | none =>
      simp only [hg]
      rw [ih]
    | some pr =>
      obtain ⟨e, sl⟩ := pr
      simp only [hg]
      rw [ih]
      have hp := (getExtentWithHeader_some_parts _ _ _ _ hg).2.2.2.1
      simpa using hp

theorem flushIds_files_lookup (ids : List Nat) (s : StoreState) (x : Nat) :
    lookupA (flushIds s ids).files x =
      if ids.contains x then none else lookupA s.files x := by
  induction ids generalizing s with
  | nil => simp [flushIds]
  | cons a rest ih =>
    rw [flushIds]
    cases hg : getExtentWithHeader { s with delIdxOff := s.delIdxOff + 8 } a with
    | none =>
      simp only [hg]
      rw [ih]
      have hfa : lookupA s.files a = none := by
        simpa using (getExtentWithHeader_none_iff { s with delIdxOff := s.delIdxOff + 8 } a).mp hg
      by_cases hx : x = a
      · subst hx
        by_cases hc : rest.contains x <;> simp [List.contains_cons, hc, hfa]
      · by_cases hc : rest.contains x <;> simp [List.contains_cons, hc, hx]
    | some pr =>
      obtain ⟨e, sl⟩ := pr
      simp only [hg]
      rw [ih]
      have hsl : sl.files = s.files := by
        simpa using (getExtentWithHeader_some_parts _ _ _ _ hg).2.2.1
      by_cases hx : x = a
      · subst hx
        by_cases hc : rest.contains x <;>
          simp [List.contains_cons, hc, lookupA_removeA, hsl]
      · by_cases hc : rest.contains x <;>
          simp [List.contains_cons, hc, hx, lookupA_removeA, hsl]

theorem contains_filter_ne (l : List Nat) (a : Nat) :
    (l.filter (fun x => x != a)).contains a = false := by
  induction l with
  | nil => rfl
  | cons hd tl ih =>
    rw [List.filter_cons]
    by_cases h : hd = a
    · rw [if_neg (by simp [h])]
      exact ih
    · rw [if_pos (by simp [h])]
      simp only [List.contains_cons, ih, Bool.or_false]
      simp [Ne.symm h]

/-! ### C7 — mark-delete lifecycle of a normal extent -/

/-- C7 counterexample: on a store holding only the normal extent 2, the
first MarkDelete succeeds and logs the id, and a second MarkDelete also
returns success (a silent no-op, not an error as claimed): the info entry
is gone, so the call returns nil without touching the delete log. -/
theorem C7_counterexample :
    MarkDelete storeC7 2 0 0 = .ok storeC7del ∧
    MarkDelete storeC7del 2 0 0 = .ok storeC7del ∧
    storeC7del.deleteLog = [2] := by
  decide

/-- C7 (amended): for a normal extent present in the store, MarkDelete
removes the info entry, invalidates the cache entry and appends the id once
(one 8-byte big-endian record) to the delete log; a further MarkDelete is a
no-op returning success (not an error), a Read with valid bounds fails with
HasDelete, a Write fails with a not-exist error, and FlushDelete unlinks
the entry file exactly once (a second FlushDelete is a no-op) while
advancing the replay cursor by 8 bytes per logged id. -/
theorem C7_mark_delete_lifecycle (s : StoreState) (eid : Nat) (info : FileInfo) (ef : ExtFile)
    (offset size dataLen now : Int) (k : Nat)
    (hTiny : IsTinyExtent eid = false)
    (hInfo : lookupA s.infoMap eid = some info)
    (hFile : lookupA s.files eid = some ef)
    (hChk : checkOffsetAndSize offset size = none)
    (hOff : s.delIdxOff = 8 * k)
    (hK : k ≤ s.deleteLog.length) :
    ∃ s1, MarkDelete s eid offset size = .ok s1 ∧
      lookupA s1.infoMap eid = none ∧
      s1.cache.contains eid = false ∧
      s1.deleteLog = s.deleteLog ++ [eid] ∧
      lookupA s1.files eid = some { ef with markDel := true } ∧
      MarkDelete s1 eid offset size = .ok s1 ∧
      StoreRead s1 eid offset size = .error .hasDelete ∧
      StoreWrite s1 eid dataLen offset size now = .error .notExist ∧
      lookupA (FlushDelete s1).files eid = none ∧
      (FlushDelete s1).delIdxOff = 8 * s1.deleteLog.length ∧
      FlushDelete (FlushDelete s1) = FlushDelete s1 := by
  obtain ⟨sA, hget, hAf, hAi, hAl, hAo⟩ : ∃ sA, getExtentWithHeader s eid = some (ef, sA) ∧
      sA.files = s.files ∧ sA.infoMap = s.infoMap ∧ sA.deleteLog = s.deleteLog ∧
      sA.delIdxOff = s.delIdxOff := by
    by_cases hc : s.cache.contains eid = true
    · refine ⟨s, ?_, rfl, rfl, rfl, rfl⟩
      simp only [getExtentWithHeader, hFile]
      rw [if_pos hc]
    · refine ⟨{ s with cache := eid :: s.cache }, ?_, rfl, rfl, rfl, rfl⟩
      simp only [getExtentWithHeader, hFile]
      rw [if_neg hc]
  set s1 : StoreState := { sA with
      files := insertA sA.files eid { ef with markDel := true },
      cache := sA.cache.filter (fun x => x != eid),
      infoMap := removeA sA.infoMap eid,
      deleteLog := sA.deleteLog ++ [eid] } with hs1
  have hInfo1 : lookupA s1.infoMap eid = none := by
    rw [hs1]
    simp [lookupA_removeA]
  have hCache1 : s1.cache.contains eid = false := by
    rw [hs1]
    exact contains_filter_ne sA.cache eid
  have hLog1 : s1.deleteLog = s.deleteLog ++ [eid] := by
    rw [hs1]
    simp [hAl]
  have hOff1 : s1.delIdxOff = 8 * k := by
    rw [hs1]
    simp [hAo, hOff]
  have hFiles1 : lookupA s1.files eid = some { ef with markDel := true } := by
    rw [hs1]
    simp [lookupA_insertA]
  have hLen1 : s1.deleteLog.length = s.deleteLog.length + 1 := by
    rw [hLog1]
    simp
  have hPend : s1.deleteLog.drop (s1.delIdxOff / 8) = s.deleteLog.drop k ++ [eid] := by
    rw [hLog1, hOff1, Nat.mul_div_cancel_left k (by norm_num : 0 < 8),
      List.drop_append_of_le_length hK]
  have hMd : MarkDelete s eid offset size = .ok s1 := by
    simp only [MarkDelete, hInfo, hget, hTiny, Bool.false_eq_true, if_false]
  have hMd2 : MarkDelete s1 eid offset size = .ok s1 := by
    simp only [MarkDelete, hInfo1]
  have hRead : StoreRead s1 eid offset size = .error .hasDelete := by
    have hget1 : getExtentWithHeader s1 eid =
        some ({ ef with markDel := true }, { s1 with cache := eid :: s1.cache }) := by
      simp only [getExtentWithHeader, hFiles1]
      rw [if_neg (by rw [hCache1]; simp)]
    have hmd1 : extentIsMarkDelete eid { ef with markDel := true } = true := by
      simp [extentIsMarkDelete, hTiny]
    simp only [StoreRead, hget1, storeCheckOffsetAndSize, hTiny, Bool.false_eq_true, if_false,
      hChk, hmd1, if_true]
  have hWrite : StoreWrite s1 eid dataLen offset size now = .error .notExist := by
    simp only [StoreWrite, hInfo1]
  have hFdFiles : lookupA (FlushDelete s1).files eid = none := by
    rw [FlushDelete, flushIds_files_lookup, hPend]
    simp
  have hFdOff : (FlushDelete s1).delIdxOff = 8 * s1.deleteLog.length := by
    rw [FlushDelete, flushIds_delIdxOff, hPend, hOff1, hLen1]
    simp only [List.length_append, List.length_drop]
    have h1 : [eid].length = 1 := rfl
    rw [h1]
    omega
  have hFdLog : (FlushDelete s1).deleteLog = s1.deleteLog := by
    rw [FlushDelete, flushIds_deleteLog]
  have hFd2 : FlushDelete (FlushDelete s1) = FlushDelete s1 := by
    have hnil : (FlushDelete s1).deleteLog.drop ((FlushDelete s1).delIdxOff / 8) = [] := by
      rw [hFdLog, hFdOff, Nat.mul_div_cancel_left s1.deleteLog.length (by norm_num : 0 < 8)]
      exact List.drop_eq_nil_of_le (le_refl _)
    calc FlushDelete (FlushDelete s1)
        = flushIds (FlushDelete s1)
            ((FlushDelete s1).deleteLog.drop ((FlushDelete s1).delIdxOff / 8)) := rfl
      _ = flushIds (FlushDelete s1) [] := by rw [hnil]
      _ = FlushDelete s1 := rfl
  exact ⟨s1, hMd, hInfo1, hCache1, hLog1, hFiles1, hMd2, hRead, hWrite, hFdFiles, hFdOff, hFd2⟩

/-- Witness for the amended C7 theorem on the concrete one-extent store. -/
theorem C7_witness :
    ∃ s1, MarkDelete storeC7 2 0 1 = .ok s1 ∧
      lookupA s1.infoMap 2 = none ∧
      s1.cache.contains 2 = false ∧
      s1.deleteLog = storeC7.deleteLog ++ [2] ∧
      lookupA s1.files 2 = some { markDel := true, dataSize := 4096 } ∧
      MarkDelete s1 2 0 1 = .ok s1 ∧
      StoreRead s1 2 0 1 = .error .hasDelete ∧
      StoreWrite s1 2 1 0 1 0 = .error .notExist ∧
      lookupA (FlushDelete s1).files 2 = none ∧
      (FlushDelete s1).delIdxOff = 8 * s1.deleteLog.length ∧
      FlushDelete (FlushDelete s1) = FlushDelete s1 :=
  C7_mark_delete_lifecycle storeC7 2 infoC3 { markDel := false, dataSize := 4096 } 0 1 1 0 0
    (by decide) (by decide) (by decide) (by decide) (by decide) (by decide)

end ChubaoFS
